import Mathlib

/-!
Verification of the clovis application launcher (src/main.rs).

The Config data model, the edit (add/remove) logic, the launcher, the
validator and the availability / running probes are embedded as executable
Lean functions. External effects are passed in as oracles:
  * `pe`    : whether a filesystem path exists (Path::exists),
  * `which` : the exit code of the external executable-resolution helper,
              `none` meaning the helper process could not be started,
  * `pg`    : the stdout of the process-listing helper on a given pattern,
              `none` meaning the helper process could not be started,
  * `home`  : the HOME environment variable (`none` = unset).
A Rust panic (`expect` / `unwrap`) is modelled as `Except.error`; console
output is modelled as explicit event lists.
-/

namespace Clovis

/-- `Config { environments: HashMap<String, Vec<String>> }`, the HashMap
represented as an association list. -/
structure Config where
  environments : List (String × List String)
deriving DecidableEq

/-- The environment names of a Config (HashMap key set, in entry order). -/
def envNames (c : Config) : List String := c.environments.map (·.1)

/-- `config.environments.contains_key(env)`. -/
def containsKey (c : Config) (env : String) : Bool :=
  c.environments.any (fun p => p.1 == env)

/-- `config.environments.get(env)` — the app sequence of `env`, if present. -/
def getApps (c : Config) (env : String) : Option (List String) :=
  (c.environments.find? (fun p => p.1 == env)).map (·.2)

/-- In-place update of the app sequence stored under `env` (the effect of
mutating the vector obtained from `get_mut` / `entry`). -/
def setApps (c : Config) (env : String) (v : List String) : Config :=
  ⟨c.environments.map (fun p => if p.1 == env then (p.1, v) else p)⟩

/-- `str::ends_with`, computed on the character sequence of the string. -/
def endsWithS (s post : String) : Bool := post.data.isSuffixOf s.data

/-- `is_command_available`: runs `which cmd`; `statusRes` is the helper's
exit code (`none` = the helper failed to run).  Rust:
`.status().map(|status| status.success()).unwrap_or(false)`. -/
def is_command_available (statusRes : Option Nat) : Bool :=
  (statusRes.map (fun code => code == 0)).getD false

/-- The fixed candidate directory list built in `is_desktop_file_available`. -/
def desktop_paths (home : String) : List String :=
  ["/usr/share/applications",
   "/usr/local/share/applications",
   home ++ "/.local/share/applications",
   "/run/current-system/sw/share/applications",
   home ++ "/.nix-profile/share/applications"]

/-- `is_desktop_file_available`: `std::env::var("HOME").unwrap()` panics when
HOME is unset (modelled as `Except.error`); otherwise scans the candidate
directories for the file. -/
def is_desktop_file_available (home : Option String) (pe : String → Bool)
    (file : String) : Except String Bool :=
  match home with
  | none => Except.error "HOME not set"
  | some h => Except.ok ((desktop_paths h).any (fun p => pe (p ++ "/" ++ file)))

/-- `app.strip_suffix(".desktop").unwrap_or(app)`. -/
def strip_desktop (app : String) : String :=
  if endsWithS app ".desktop" then
    ⟨app.data.take (app.data.length - ".desktop".data.length)⟩
  else app

/-- `is_app_running`: runs `pgrep -f app_name`; its `.output().expect(...)`
panics when the helper cannot be run, otherwise the app counts as running
iff stdout is non-empty. -/
def is_app_running (pg : String → Option String) (app : String) :
    Except String Bool :=
  match pg (strip_desktop app) with
  | none => Except.error "Failed to execute pgrep"
  | some out => Except.ok (!out.isEmpty)

/-- The availability dispatch of `handle_edit_command` (main.rs:119-123):
a `.desktop` identifier consults the desktop directories, anything else
consults the `which` helper. -/
def app_available (home : Option String) (pe : String → Bool)
    (which : String → Option Nat) (app : String) : Except String Bool :=
  if endsWithS app ".desktop" then is_desktop_file_available home pe app
  else Except.ok (is_command_available (which app))

/-- The boolean value of `app_available` in the non-panicking case
(HOME present). -/
def availB (h : String) (pe : String → Bool) (which : String → Option Nat)
    (app : String) : Bool :=
  if endsWithS app ".desktop" then
    (desktop_paths h).any (fun p => pe (p ++ "/" ++ app))
  else is_command_available (which app)

/-- Console/log messages emitted by `handle_edit_command`. -/
inductive EditMsg where
  | envNotExist : String → EditMsg
  | warnUnavailable : String → EditMsg
  | added : String → String → EditMsg
  | alreadyPresent : String → String → EditMsg
  | removed : String → String → EditMsg
  | notFound : String → String → EditMsg
  | invalidAction : String → EditMsg
deriving DecidableEq

/-- The warning block printed when the availability check fails. -/
def warnAv (av : Bool) (app : String) : List EditMsg :=
  if !av then [EditMsg.warnUnavailable app] else []

/-- `handle_edit_command`: returns the updated Config, the "was mutated"
boolean, and the emitted messages; `Except.error` models the panic that
`is_desktop_file_available` can raise. -/
def handle_edit_command (home : Option String) (pe : String → Bool)
    (which : String → Option Nat) (config : Config)
    (env action app : String) : Except String (Config × Bool × List EditMsg) :=
  if !(containsKey config env) then
    Except.ok (config, false, [EditMsg.envNotExist env])
  else
    match app_available home pe which app with
    | Except.error e => Except.error e
    | Except.ok av =>
      let warn := warnAv av app
      if action = "add" then
        let apps := (getApps config env).getD []
        if apps.contains app then
          Except.ok (config, false, warn ++ [EditMsg.alreadyPresent app env])
        else
          Except.ok (setApps config env (apps ++ [app]), true,
                     warn ++ [EditMsg.added app env])
      else if action = "remove" then
        match getApps config env with
        | some apps =>
          match apps.findIdx? (fun x => x == app) with
          | some pos =>
            Except.ok (setApps config env (apps.eraseIdx pos), true,
                       warn ++ [EditMsg.removed app env])
          | none =>
            Except.ok (config, false, warn ++ [EditMsg.notFound app env])
        | none => Except.ok (config, true, warn)
      else
        Except.ok (config, false, warn ++ [EditMsg.invalidAction action])

/-- The disk effect of `main`'s Edit branch. -/
inductive MainAction where
  | save : Config → MainAction
  | noChange : MainAction
deriving DecidableEq

/-- `main`'s Edit branch: persists the Config iff `handle_edit_command`
returned `true`. -/
def main_edit (home : Option String) (pe : String → Bool)
    (which : String → Option Nat) (config : Config)
    (env action app : String) : Except String MainAction :=
  match handle_edit_command home pe which config env action app with
  | Except.error e => Except.error e
  | Except.ok r => if r.2.1 then Except.ok (MainAction.save r.1)
                   else Except.ok MainAction.noChange

/-- Console events of `launch_apps`. -/
inductive LEvent where
  | skip : String → LEvent
  | launching : String → LEvent
  | envNotFound : String → LEvent
deriving DecidableEq

/-- The per-app loop of `launch_apps`.  The returned Bool is `true` iff the
loop ran to completion (`false` = a panic aborted it: either `pgrep` could
not be run, or `.spawn().expect("Failed to launch application")` failed,
`spawnOk` telling whether spawning a given app succeeds). -/
def launch_loop (pg : String → Option String) (spawnOk : String → Bool)
    (force : Bool) : List String → List LEvent × Bool
  | [] => ([], true)
  | app :: rest =>
    if force = false then
      match is_app_running pg app with
      | Except.error _ => ([], false)
      | Except.ok true =>
        let r := launch_loop pg spawnOk force rest
        (LEvent.skip app :: r.1, r.2)
      | Except.ok false =>
        if spawnOk app then
          let r := launch_loop pg spawnOk force rest
          (LEvent.launching app :: r.1, r.2)
        else ([LEvent.launching app], false)
    else
      if spawnOk app then
        let r := launch_loop pg spawnOk force rest
        (LEvent.launching app :: r.1, r.2)
      else ([LEvent.launching app], false)

/-- `launch_apps` (main.rs:230-249). -/
def launch_apps (pg : String → Option String) (spawnOk : String → Bool)
    (c : Config) (env : String) (force : Bool) : List LEvent × Bool :=
  match getApps c env with
  | some apps => launch_loop pg spawnOk force apps
  | none => ([LEvent.envNotFound env], true)

/-- The boolean the Process Probe reports for `app` when the helper runs. -/
def runsB (pg : String → Option String) (app : String) : Bool :=
  match is_app_running pg app with
  | Except.ok b => b
  | Except.error _ => false

/-- The inner `for app in apps` loop of `validate_config`, accumulating the
warning lines (as (env, app) pairs) and the `all_valid` flag.  `Except.error`
models the panic `is_desktop_file_available` can raise. -/
def validate_apps (home : Option String) (pe : String → Bool)
    (which : String → Option Nat) (env : String) :
    List String → List (String × String) × Bool →
    Except String (List (String × String) × Bool)
  | [], acc => Except.ok acc
  | app :: rest, (ws, allv) =>
    if endsWithS app ".desktop" then
      match is_desktop_file_available home pe app with
      | Except.error e => Except.error e
      | Except.ok av =>
        if !av then validate_apps home pe which env rest (ws ++ [(env, app)], false)
        else validate_apps home pe which env rest (ws, allv)
    else
      if !(is_command_available (which app)) then
        validate_apps home pe which env rest (ws ++ [(env, app)], false)
      else validate_apps home pe which env rest (ws, allv)

/-- The outer `for (env, apps)` loop of `validate_config`. -/
def validate_envs (home : Option String) (pe : String → Bool)
    (which : String → Option Nat) :
    List (String × List String) → List (String × String) × Bool →
    Except String (List (String × String) × Bool)
  | [], acc => Except.ok acc
  | (env, apps) :: rest, acc =>
    match validate_apps home pe which env apps acc with
    | Except.error e => Except.error e
    | Except.ok acc2 => validate_envs home pe which rest acc2

/-- `validate_config` (main.rs:251-269): full scan of the Config, returning
the warning lines and whether the final "all valid" confirmation is
printed. -/
def validate_config (home : Option String) (pe : String → Bool)
    (which : String → Option Nat) (c : Config) :
    Except String (List (String × String) × Bool) :=
  validate_envs home pe which c.environments ([], true)

/-- All (env, app) pairs of a Config, in scan order. -/
def allPairs (c : Config) : List (String × String) :=
  c.environments.flatMap (fun p => p.2.map (fun a => (p.1, a)))

/-- The (env, app) pairs whose app the Availability Checker reports
unavailable. -/
def unavailable_pairs (h : String) (pe : String → Bool)
    (which : String → Option Nat) (c : Config) : List (String × String) :=
  (allPairs c).filter (fun p => !(availB h pe which p.2))

/-- A YAML document value, the shape serde_yaml works with here. -/
inductive Yaml where
  | str : String → Yaml
  | seq : List Yaml → Yaml
  | map : List (String × Yaml) → Yaml

/-- Modelled from the spec: `save_config` serializes the Config with
`serde_yaml::to_string` (external crate code, not in src/); the structured
document it writes is the mapping from each environment name to the sequence
of its app strings, in Config entry order. -/
def save_config (c : Config) : Yaml :=
  Yaml.map (c.environments.map (fun p => (p.1, Yaml.seq (p.2.map Yaml.str))))

/-- Modelled from the spec: deserializing one YAML sequence into a
`Vec<String>` — every item must be a string scalar. -/
def parseApps : List Yaml → Option (List String)
  | [] => some []
  | Yaml.str s :: rest => (parseApps rest).map (fun l => s :: l)
  | Yaml.seq _ :: _ => none
  | Yaml.map _ :: _ => none

/-- Modelled from the spec: deserializing the entries of a YAML mapping into
the environments HashMap — each value must be a sequence of strings, and a
duplicate key is a parse error. -/
def parseEnvs : List (String × Yaml) → Option (List (String × List String))
  | [] => some []
  | (k, v) :: rest =>
    if rest.any (fun q => q.1 == k) then none
    else
      match v with
      | Yaml.seq items =>
        match parseApps items, parseEnvs rest with
        | some apps, some envs => some ((k, apps) :: envs)
        | _, _ => none
      | _ => none

/-- Modelled from the spec: `load_config` parses the persisted document with
`serde_yaml::from_str` (external crate code, not in src/) into a Config; a
document that is not a mapping of name to string sequence is a ParseError. -/
def load_config (doc : Yaml) : Option Config :=
  match doc with
  | Yaml.map entries => (parseEnvs entries).map Config.mk
  | _ => none

/-- Whether the environment keys of a Config are pairwise distinct. -/
def envKeysNodup : List (String × List String) → Bool
  | [] => true
  | p :: rest => !(rest.any (fun q => q.1 == p.1)) && envKeysNodup rest

/-! ### Lemmas about the Config accessors -/

lemma containsKey_eq_isSome (c : Config) (env : String) :
    containsKey c env = (getApps c env).isSome := by
  obtain ⟨l⟩ := c
  induction l with
  | nil => rfl
  | cons p rest ih =>
    simp only [containsKey, getApps, List.any_cons, List.find?_cons] at *
    cases hp : p.1 == env with
    | true => simp [hp]
    | false => simp [hp]; simpa using ih

lemma containsKey_of_getApps (c : Config) (env : String) (apps : List String)
    (h : getApps c env = some apps) : containsKey c env = true := by
  rw [containsKey_eq_isSome, h]; rfl

lemma find?_setApps_list (l : List (String × List String)) (env : String)
    (v : List String) :
    (l.map (fun p => if p.1 == env then (p.1, v) else p)).find?
        (fun p => p.1 == env)
      = (l.find? (fun p => p.1 == env)).map (fun p => (p.1, v)) := by
  induction l with
  | nil => rfl
  | cons p rest ih =>
    by_cases hp : p.1 = env
    · simp [List.find?_cons, hp]
    · have hb : (p.1 == env) = false := by simpa using hp
      simp only [List.map_cons, List.find?_cons, hb, Bool.false_eq_true, if_false]
      exact ih

lemma find?_setApps_list_ne (l : List (String × List String)) (env e : String)
    (v : List String) (he : e ≠ env) :
    (l.map (fun p => if p.1 == env then (p.1, v) else p)).find?
        (fun p => p.1 == e)
      = l.find? (fun p => p.1 == e) := by
  induction l with
  | nil => rfl
  | cons p rest ih =>
    by_cases hp : p.1 = env
    · have h1 : (p.1 == env) = true := by simpa using hp
      have h2 : (p.1 == e) = false := by
        simp only [beq_eq_false_iff_ne, hp]
        exact fun hh => he hh.symm
      simp only [List.map_cons, List.find?_cons, if_pos h1, h2, Bool.false_eq_true,
        if_false]
      exact ih
    · have h1 : (p.1 == env) = false := by simpa using hp
      simp only [List.map_cons, List.find?_cons, h1, Bool.false_eq_true, if_false]
      cases hq : p.1 == e with
      | true => rfl
      | false => exact ih

lemma getApps_setApps_self (c : Config) (env : String) (v : List String)
    (h : containsKey c env = true) :
    getApps (setApps c env v) env = some v := by
  have hs : (getApps c env).isSome = true := by rw [← containsKey_eq_isSome]; exact h
  simp only [getApps] at hs ⊢
  simp only [setApps]
  rw [find?_setApps_list]
  cases hq : c.environments.find? (fun p => p.1 == env) with
  | none => rw [hq] at hs; simp at hs
  | some q => rfl

lemma getApps_setApps_ne (c : Config) (env e : String) (v : List String)
    (he : e ≠ env) :
    getApps (setApps c env v) e = getApps c e := by
  unfold getApps setApps
  rw [find?_setApps_list_ne _ _ _ _ he]

lemma envNames_setApps (c : Config) (env : String) (v : List String) :
    envNames (setApps c env v) = envNames c := by
  obtain ⟨l⟩ := c
  induction l with
  | nil => rfl
  | cons p rest ih =>
    cases hp : p.1 == env <;> simp_all [envNames, setApps]

lemma containsKey_setApps (c : Config) (env e : String) (v : List String) :
    containsKey (setApps c env v) e = containsKey c e := by
  obtain ⟨l⟩ := c
  induction l with
  | nil => rfl
  | cons p rest ih =>
    cases hp : p.1 == env <;> simp_all [containsKey, setApps]

lemma setApps_setApps (c : Config) (env : String) (v w : List String) :
    setApps (setApps c env v) env w = setApps c env w := by
  obtain ⟨l⟩ := c
  induction l with
  | nil => rfl
  | cons p rest ih =>
    cases hp : p.1 == env <;>
      simp_all [setApps, Config.mk.injEq]

/-! ### Lemmas about list search and removal -/

lemma findIdx?_append_first (l1 l2 : List String) (a : String) (h : a ∉ l1) :
    ∀ i, List.findIdx? (fun x => x == a) (l1 ++ a :: l2) i = some (i + l1.length) := by
  induction l1 with
  | nil => intro i; simp [List.findIdx?_cons]
  | cons b rest ih =>
    intro i
    have hb : (b == a) = false := by
      simp only [beq_eq_false_iff_ne]
      exact fun hba => h (by simp [hba])
    have hrest : a ∉ rest := fun hm => h (List.mem_cons_of_mem _ hm)
    simp only [List.cons_append, List.findIdx?_cons, hb, Bool.false_eq_true,
      if_false, ih hrest (i + 1), List.length_cons]
    congr 1
    omega

lemma eraseIdx_append_length (l1 l2 : List String) (a : String) :
    (l1 ++ a :: l2).eraseIdx l1.length = l1 ++ l2 := by
  induction l1 with
  | nil => simp
  | cons b rest ih => simp [List.eraseIdx_cons_succ, ih]

lemma mem_first_decomp (l : List String) (a : String) (h : a ∈ l) :
    ∃ l1 l2, l = l1 ++ a :: l2 ∧ a ∉ l1 := by
  induction l with
  | nil => cases h
  | cons b rest ih =>
    by_cases hb : b = a
    · exact ⟨[], rest, by simp [hb], by simp⟩
    · obtain ⟨l1, l2, heq, hnm⟩ := ih (by
        rcases List.mem_cons.mp h with h1 | h2
        · exact absurd h1.symm hb
        · exact h2)
      exact ⟨b :: l1, l2, by simp [heq], by
        simp only [List.mem_cons, not_or]
        exact ⟨fun haa => hb haa.symm, hnm⟩⟩

lemma contains_iff_mem (l : List String) (a : String) :
    l.contains a = true ↔ a ∈ l := by
  simp [List.contains_eq_any_beq, List.any_eq_true, beq_iff_eq]

lemma findIdx?_eq_none_of_not_mem (l : List String) (a : String) (h : a ∉ l) :
    ∀ i, List.findIdx? (fun x => x == a) l i = none := by
  induction l with
  | nil => intro i; rfl
  | cons b rest ih =>
    intro i
    have hb : (b == a) = false := by
      simp only [beq_eq_false_iff_ne]
      exact fun hba => h (by simp [hba])
    simp only [List.findIdx?_cons, hb, Bool.false_eq_true, if_false]
    exact ih (fun hm => h (List.mem_cons_of_mem _ hm)) (i + 1)

lemma findIdx?_some_bounds (p : String → Bool) (l : List String) :
    ∀ i j, List.findIdx? p l i = some j → i ≤ j ∧ j - i < l.length := by
  induction l with
  | nil => intro i j h; cases h
  | cons b rest ih =>
    intro i j h
    rw [List.findIdx?_cons] at h
    by_cases hb : p b = true
    · rw [if_pos hb] at h
      cases h
      simp only [List.length_cons]
      omega
    · rw [if_neg hb] at h
      have := ih (i + 1) j h
      constructor
      · omega
      · simp only [List.length_cons]
        omega

/-! ### Reduction lemmas for `handle_edit_command` -/

lemma handle_edit_noenv (home : Option String) (pe : String → Bool)
    (which : String → Option Nat) (c : Config) (env action app : String)
    (hck : containsKey c env = false) :
    handle_edit_command home pe which c env action app =
      Except.ok (c, false, [EditMsg.envNotExist env]) := by
  simp [handle_edit_command, hck]

lemma handle_edit_err (home : Option String) (pe : String → Bool)
    (which : String → Option Nat) (c : Config) (env action app msg : String)
    (hck : containsKey c env = true)
    (he : app_available home pe which app = Except.error msg) :
    handle_edit_command home pe which c env action app = Except.error msg := by
  simp [handle_edit_command, hck, he]

lemma handle_edit_add_eq (home : Option String) (pe : String → Bool)
    (which : String → Option Nat) (c : Config) (env app : String)
    (apps : List String) (av : Bool)
    (h : getApps c env = some apps)
    (hav : app_available home pe which app = Except.ok av) :
    handle_edit_command home pe which c env "add" app =
      if apps.contains app then
        Except.ok (c, false, warnAv av app ++ [EditMsg.alreadyPresent app env])
      else
        Except.ok (setApps c env (apps ++ [app]), true,
                   warnAv av app ++ [EditMsg.added app env]) := by
  have hck := containsKey_of_getApps c env apps h
  simp [handle_edit_command, hck, hav, h]

lemma handle_edit_remove_eq (home : Option String) (pe : String → Bool)
    (which : String → Option Nat) (c : Config) (env app : String)
    (apps : List String) (av : Bool)
    (h : getApps c env = some apps)
    (hav : app_available home pe which app = Except.ok av) :
    handle_edit_command home pe which c env "remove" app =
      match apps.findIdx? (fun x => x == app) with
      | some pos =>
        Except.ok (setApps c env (apps.eraseIdx pos), true,
                   warnAv av app ++ [EditMsg.removed app env])
      | none =>
        Except.ok (c, false, warnAv av app ++ [EditMsg.notFound app env]) := by
  have hck := containsKey_of_getApps c env apps h
  simp [handle_edit_command, hck, hav, h]

lemma handle_edit_invalid (home : Option String) (pe : String → Bool)
    (which : String → Option Nat) (c : Config) (env action app : String)
    (av : Bool)
    (hck : containsKey c env = true)
    (hav : app_available home pe which app = Except.ok av)
    (ha1 : action ≠ "add") (ha2 : action ≠ "remove") :
    handle_edit_command home pe which c env action app =
      Except.ok (c, false, warnAv av app ++ [EditMsg.invalidAction action]) := by
  simp [handle_edit_command, hck, hav, ha1, ha2]

/-- Every successful run of `handle_edit_command` either leaves the Config
untouched and reports `false`, or replaces the targeted environment's app
sequence by a genuinely different one and reports `true`. -/
lemma handle_edit_cases (home : Option String) (pe : String → Bool)
    (which : String → Option Nat) (c : Config) (env action app : String)
    (r : Config × Bool × List EditMsg)
    (h : handle_edit_command home pe which c env action app = Except.ok r) :
    (r.1 = c ∧ r.2.1 = false) ∨
    (∃ v, containsKey c env = true ∧ r.1 = setApps c env v ∧ r.2.1 = true ∧
          getApps c env ≠ some v) := by
  cases hck : containsKey c env with
  | false =>
    rw [handle_edit_noenv home pe which c env action app hck] at h
    cases h
    exact Or.inl ⟨rfl, rfl⟩
  | true =>
    cases hav : app_available home pe which app with
    | error msg =>
      rw [handle_edit_err home pe which c env action app msg hck hav] at h
      cases h
    | ok av =>
      have hsome : (getApps c env).isSome = true := by
        rw [← containsKey_eq_isSome]; exact hck
      obtain ⟨apps, happs⟩ := Option.isSome_iff_exists.mp hsome
      by_cases ha1 : action = "add"
      · subst ha1
        rw [handle_edit_add_eq home pe which c env app apps av happs hav] at h
        by_cases hc : apps.contains app = true
        · rw [if_pos hc] at h
          cases h
          exact Or.inl ⟨rfl, rfl⟩
        · rw [if_neg hc] at h
          cases h
          refine Or.inr ⟨apps ++ [app], rfl, rfl, rfl, ?_⟩
          rw [happs]
          intro heq
          have := congrArg (fun o => (o.getD []).length) heq
          simp at this
      · by_cases ha2 : action = "remove"
        · subst ha2
          rw [handle_edit_remove_eq home pe which c env app apps av happs hav] at h
          cases hidx : apps.findIdx? (fun x => x == app) with
          | none =>
            rw [hidx] at h
            cases h
            exact Or.inl ⟨rfl, rfl⟩
          | some pos =>
            rw [hidx] at h
            cases h
            refine Or.inr ⟨apps.eraseIdx pos, rfl, rfl, rfl, ?_⟩
            rw [happs]
            intro heq
            have hlt : pos < apps.length := by
              have := findIdx?_some_bounds (fun x => x == app) apps 0 pos hidx
              omega
            have := congrArg (fun o => (o.getD []).length) heq
            simp only [Option.getD_some, List.length_eraseIdx] at this
            rw [if_pos hlt] at this
            omega
        · rw [handle_edit_invalid home pe which c env action app av hck hav
              ha1 ha2] at h
          cases h
          exact Or.inl ⟨rfl, rfl⟩

/-! ### Claim theorems for the Editor -/

/-- C2: for an existing environment, `Add(env, app)` fails with no mutation
(the no-change signal and an error message) when `app` is already in the
sequence, and otherwise appends `app` at the end; a second identical `Add`
with no `Remove` in between therefore reports the duplicate error, returns
no-mutation, and leaves the sequence (hence its length) unchanged. -/
theorem add_duplicate_guard_spec (home : Option String) (pe : String → Bool)
    (which : String → Option Nat) (c : Config) (env app : String)
    (apps : List String) (av : Bool)
    (h : getApps c env = some apps)
    (hav : app_available home pe which app = Except.ok av) :
    (app ∈ apps →
      handle_edit_command home pe which c env "add" app =
        Except.ok (c, false, warnAv av app ++ [EditMsg.alreadyPresent app env])) ∧
    (app ∉ apps →
      handle_edit_command home pe which c env "add" app =
        Except.ok (setApps c env (apps ++ [app]), true,
                   warnAv av app ++ [EditMsg.added app env]) ∧
      getApps (setApps c env (apps ++ [app])) env = some (apps ++ [app]) ∧
      handle_edit_command home pe which (setApps c env (apps ++ [app])) env
          "add" app =
        Except.ok (setApps c env (apps ++ [app]), false,
                   warnAv av app ++ [EditMsg.alreadyPresent app env])) := by
  have hck := containsKey_of_getApps c env apps h
  constructor
  · intro hm
    rw [handle_edit_add_eq home pe which c env app apps av h hav,
        if_pos ((contains_iff_mem apps app).mpr hm)]
  · intro hm
    have hc : apps.contains app = false :=
      Bool.eq_false_iff.mpr (fun hh => hm ((contains_iff_mem apps app).mp hh))
    have hget' : getApps (setApps c env (apps ++ [app])) env
        = some (apps ++ [app]) :=
      getApps_setApps_self c env (apps ++ [app]) hck
    refine ⟨?_, hget', ?_⟩
    · rw [handle_edit_add_eq home pe which c env app apps av h hav,
          if_neg (by simp [hm])]
    · rw [handle_edit_add_eq home pe which (setApps c env (apps ++ [app])) env
            app (apps ++ [app]) av hget' hav,
          if_pos ((contains_iff_mem _ app).mpr (by simp))]

/-- Witness for `add_duplicate_guard_spec` at a concrete Config: adding `y`
to environment `e = [x]` succeeds, the repeated add reports the duplicate
and changes nothing. -/
theorem add_duplicate_guard_spec_witness :
    handle_edit_command none (fun _ => true) (fun _ => some 0)
        ⟨[("e", ["x"])]⟩ "e" "add" "y" =
      Except.ok (setApps ⟨[("e", ["x"])]⟩ "e" ["x", "y"], true,
                 [EditMsg.added "y" "e"]) ∧
    handle_edit_command none (fun _ => true) (fun _ => some 0)
        (setApps ⟨[("e", ["x"])]⟩ "e" ["x", "y"]) "e" "add" "y" =
      Except.ok (setApps ⟨[("e", ["x"])]⟩ "e" ["x", "y"], false,
                 [EditMsg.alreadyPresent "y" "e"]) := by
  have h := (add_duplicate_guard_spec none (fun _ => true) (fun _ => some 0)
      ⟨[("e", ["x"])]⟩ "e" "y" ["x"] true rfl rfl).2 (by decide)
  exact ⟨by simpa using h.1, by simpa using h.2.2⟩

/-- C3: for an existing environment, `Remove(env, app)` fails with no
mutation when `app` is absent, and otherwise deletes the first occurrence of
`app`, keeping the remaining entries in their relative order; a subsequent
`Add` of the same app appends it at the end. -/
theorem remove_spec (home : Option String) (pe : String → Bool)
    (which : String → Option Nat) (c : Config) (env app : String)
    (apps : List String) (av : Bool)
    (h : getApps c env = some apps)
    (hav : app_available home pe which app = Except.ok av) :
    (app ∉ apps →
      handle_edit_command home pe which c env "remove" app =
        Except.ok (c, false, warnAv av app ++ [EditMsg.notFound app env])) ∧
    (∀ l1 l2, apps = l1 ++ app :: l2 → app ∉ l1 →
      handle_edit_command home pe which c env "remove" app =
        Except.ok (setApps c env (l1 ++ l2), true,
                   warnAv av app ++ [EditMsg.removed app env])) ∧
    (∀ l1 l2, apps = l1 ++ app :: l2 → app ∉ l1 → app ∉ l2 →
      handle_edit_command home pe which (setApps c env (l1 ++ l2)) env
          "add" app =
        Except.ok (setApps c env ((l1 ++ l2) ++ [app]), true,
                   warnAv av app ++ [EditMsg.added app env])) := by
  have hck := containsKey_of_getApps c env apps h
  refine ⟨?_, ?_, ?_⟩
  · intro hm
    rw [handle_edit_remove_eq home pe which c env app apps av h hav,
        findIdx?_eq_none_of_not_mem apps app hm 0]
  · intro l1 l2 hdec hnm
    rw [handle_edit_remove_eq home pe which c env app apps av h hav, hdec,
        findIdx?_append_first l1 l2 app hnm 0]
    simp [eraseIdx_append_length]
  · intro l1 l2 hdec h1 h2
    have hget' : getApps (setApps c env (l1 ++ l2)) env = some (l1 ++ l2) :=
      getApps_setApps_self c env (l1 ++ l2) hck
    have hc : (l1 ++ l2).contains app = false := by
      apply Bool.eq_false_iff.mpr
      intro hh
      rcases List.mem_append.mp ((contains_iff_mem _ app).mp hh) with hm | hm
      exacts [h1 hm, h2 hm]
    rw [handle_edit_add_eq home pe which (setApps c env (l1 ++ l2)) env app
          (l1 ++ l2) av hget' hav,
        if_neg (by simp [h1, h2]), setApps_setApps]

/-- Witness for `remove_spec` at the spec's example: in environment
`e = [a, b, c]`, removing `b` yields `[a, c]` and a subsequent add of `b`
yields `[a, c, b]`. -/
theorem remove_spec_witness :
    handle_edit_command none (fun _ => true) (fun _ => some 0)
        ⟨[("e", ["a", "b", "c"])]⟩ "e" "remove" "b" =
      Except.ok (setApps ⟨[("e", ["a", "b", "c"])]⟩ "e" ["a", "c"], true,
                 [EditMsg.removed "b" "e"]) ∧
    handle_edit_command none (fun _ => true) (fun _ => some 0)
        (setApps ⟨[("e", ["a", "b", "c"])]⟩ "e" ["a", "c"]) "e" "add" "b" =
      Except.ok (setApps ⟨[("e", ["a", "b", "c"])]⟩ "e" ["a", "c", "b"], true,
                 [EditMsg.added "b" "e"]) := by
  have h := remove_spec none (fun _ => true) (fun _ => some 0)
      ⟨[("e", ["a", "b", "c"])]⟩ "e" "b" ["a", "b", "c"] true rfl rfl
  exact ⟨by simpa using h.2.1 ["a"] ["c"] rfl (by decide),
         by simpa using h.2.2 ["a"] ["c"] rfl (by decide) (by decide)⟩

/-- C4: a successful Editor operation returns `true` exactly when the Config
was actually changed — every error path leaves the Config as it was and
returns `false` — and `main` persists the (resulting) Config iff the signal
is `true`. -/
theorem editor_mutation_signal_spec (home : Option String) (pe : String → Bool)
    (which : String → Option Nat) (c : Config) (env action app : String)
    (r : Config × Bool × List EditMsg)
    (h : handle_edit_command home pe which c env action app = Except.ok r) :
    (r.2.1 = true ↔ r.1 ≠ c) ∧
    (main_edit home pe which c env action app
        = Except.ok (MainAction.save r.1) ↔ r.2.1 = true) := by
  constructor
  · rcases handle_edit_cases home pe which c env action app r h with
      ⟨he, hf⟩ | ⟨v, hck, he, ht, hne⟩
    · simp [he, hf]
    · rw [ht, he]
      refine ⟨fun _ hceq => ?_, fun _ => rfl⟩
      have hv := getApps_setApps_self c env v hck
      rw [hceq] at hv
      exact absurd hv hne
  · unfold main_edit
    rw [h]
    cases hb : r.2.1 with
    | true => simp [hb]
    | false => simp [hb]

/-- Witness for `editor_mutation_signal_spec`: a successful add on a
concrete Config mutates it and is persisted. -/
theorem editor_mutation_signal_spec_witness :
    ((⟨[("e", ["x", "y"])]⟩ : Config) ≠ ⟨[("e", ["x"])]⟩) ∧
    main_edit none (fun _ => true) (fun _ => some 0) ⟨[("e", ["x"])]⟩
        "e" "add" "y" =
      Except.ok (MainAction.save ⟨[("e", ["x", "y"])]⟩) := by
  have h := editor_mutation_signal_spec none (fun _ => true) (fun _ => some 0)
      ⟨[("e", ["x"])]⟩ "e" "add" "y"
      (⟨[("e", ["x", "y"])]⟩, true, [EditMsg.added "y" "e"]) rfl
  exact ⟨h.1.mp rfl, h.2.mpr rfl⟩

/-- C10: a successful Editor operation never creates or deletes an
environment (the environment-name list is unchanged), and the app sequence
of every environment other than the targeted one is left exactly as it
was. -/
theorem editor_frame_spec (home : Option String) (pe : String → Bool)
    (which : String → Option Nat) (c : Config) (env action app : String)
    (r : Config × Bool × List EditMsg)
    (h : handle_edit_command home pe which c env action app = Except.ok r) :
    envNames r.1 = envNames c ∧
    ∀ e, e ≠ env → getApps r.1 e = getApps c e := by
  rcases handle_edit_cases home pe which c env action app r h with
    ⟨he, _⟩ | ⟨v, _, he, _, _⟩
  · rw [he]
    exact ⟨rfl, fun e _ => rfl⟩
  · rw [he]
    exact ⟨envNames_setApps c env v, fun e hne => getApps_setApps_ne c env e v hne⟩

/-- Witness for `editor_frame_spec`: removing from environment `e` leaves
environment `f` and the key list untouched. -/
theorem editor_frame_spec_witness :
    envNames ⟨[("e", []), ("f", ["z"])]⟩
      = envNames ⟨[("e", ["x"]), ("f", ["z"])]⟩ ∧
    getApps ⟨[("e", []), ("f", ["z"])]⟩ "f"
      = getApps ⟨[("e", ["x"]), ("f", ["z"])]⟩ "f" := by
  have h := editor_frame_spec none (fun _ => true) (fun _ => some 0)
      ⟨[("e", ["x"]), ("f", ["z"])]⟩ "e" "remove" "x"
      (⟨[("e", []), ("f", ["z"])]⟩, true, [EditMsg.removed "x" "e"]) rfl
  exact ⟨h.1, h.2 "f" (by decide)⟩

/-! ### Lemmas and claim theorems for the Launcher -/

lemma launch_loop_noforce (pg : String → Option String) (apps : List String)
    (hprobe : ∀ a ∈ apps, (pg (strip_desktop a)).isSome = true) :
    launch_loop pg (fun _ => true) false apps =
      (apps.map (fun a => if runsB pg a then LEvent.skip a
                          else LEvent.launching a), true) := by
  induction apps with
  | nil => rfl
  | cons a rest ih =>
    have ha := hprobe a (List.mem_cons_self a rest)
    have hr := ih (fun x hx => hprobe x (List.mem_cons_of_mem a hx))
    cases hpg : pg (strip_desktop a) with
    | none => rw [hpg] at ha; cases ha
    | some out =>
      have hia : is_app_running pg a = Except.ok (!out.isEmpty) := by
        simp [is_app_running, hpg]
      have hrun : runsB pg a = !out.isEmpty := by
        simp [runsB, hia]
      cases hoe : out.isEmpty with
      | true =>
        simp only [hoe, Bool.not_true] at hia hrun
        simp [launch_loop, hia, hrun, hr]
      | false =>
        simp only [hoe, Bool.not_false] at hia hrun
        simp [launch_loop, hia, hrun, hr]

lemma launch_loop_force_all (pg : String → Option String) (apps : List String) :
    launch_loop pg (fun _ => true) true apps =
      (apps.map LEvent.launching, true) := by
  induction apps with
  | nil => rfl
  | cons a rest ih => simp [launch_loop, ih]

/-- C1: launching an existing environment with `force = false` skips (with a
notice, and without spawning) exactly the apps the Process Probe reports
running and spawns the others, in sequence order; with `force = true` every
app is spawned in sequence order and no skip notice is emitted. -/
theorem launch_skip_and_force_spec (pg : String → Option String) (c : Config)
    (env : String) (apps : List String)
    (happs : getApps c env = some apps)
    (hprobe : ∀ a ∈ apps, (pg (strip_desktop a)).isSome = true) :
    launch_apps pg (fun _ => true) c env false =
      (apps.map (fun a => if runsB pg a then LEvent.skip a
                          else LEvent.launching a), true) ∧
    (∀ a, runsB pg a = true →
      LEvent.launching a ∉ (launch_apps pg (fun _ => true) c env false).1) ∧
    (∀ a ∈ apps, runsB pg a = true →
      LEvent.skip a ∈ (launch_apps pg (fun _ => true) c env false).1) ∧
    launch_apps pg (fun _ => true) c env true =
      (apps.map LEvent.launching, true) ∧
    (∀ a, LEvent.skip a ∉ (launch_apps pg (fun _ => true) c env true).1) := by
  have hA : launch_apps pg (fun _ => true) c env false =
      launch_loop pg (fun _ => true) false apps := by
    simp [launch_apps, happs]
  have hB : launch_apps pg (fun _ => true) c env true =
      launch_loop pg (fun _ => true) true apps := by
    simp [launch_apps, happs]
  have h1 := launch_loop_noforce pg apps hprobe
  have h2 := launch_loop_force_all pg apps
  refine ⟨hA.trans h1, ?_, ?_, hB.trans h2, ?_⟩
  · intro a hra hmem
    rw [hA, h1] at hmem
    simp only [List.mem_map] at hmem
    obtain ⟨b, _, heq⟩ := hmem
    by_cases hrb : runsB pg b = true
    · rw [if_pos hrb] at heq
      cases heq
    · rw [if_neg hrb] at heq
      cases heq
      exact hrb hra
  · intro a hmem hra
    rw [hA, h1]
    simp only [List.mem_map]
    exact ⟨a, hmem, by rw [if_pos hra]⟩
  · intro a hmem
    rw [hB, h2] at hmem
    simp only [List.mem_map] at hmem
    obtain ⟨b, _, heq⟩ := hmem
    cases heq

/-- Witness for `launch_skip_and_force_spec`: environment `[foo, bar]` with
`foo` reported running — without force one skip and one spawn, with force
two spawns and no skip. -/
theorem launch_skip_and_force_spec_witness :
    launch_apps (fun s => if s == "foo" then some "x" else some "")
        (fun _ => true) ⟨[("e", ["foo", "bar"])]⟩ "e" false =
      ([LEvent.skip "foo", LEvent.launching "bar"], true) ∧
    launch_apps (fun s => if s == "foo" then some "x" else some "")
        (fun _ => true) ⟨[("e", ["foo", "bar"])]⟩ "e" true =
      ([LEvent.launching "foo", LEvent.launching "bar"], true) := by
  have h := launch_skip_and_force_spec
      (fun s => if s == "foo" then some "x" else some "")
      ⟨[("e", ["foo", "bar"])]⟩ "e" ["foo", "bar"] rfl (by decide)
  constructor
  · rw [h.1]; decide
  · rw [h.2.2.2.1]; decide

/-- C5 counterexample: with an environment `[a, b]` where spawning `a`
fails, the launch loop aborts — `b` is never considered (no spawn attempt
and no skip notice for it), contradicting "does not abort processing of
remaining apps". -/
theorem spawn_failure_abort_counterexample :
    launch_apps (fun _ => some "") (fun a => !(a == "a"))
        ⟨[("e", ["a", "b"])]⟩ "e" true = ([LEvent.launching "a"], false) ∧
    LEvent.launching "b" ∉ (launch_apps (fun _ => some "") (fun a => !(a == "a"))
        ⟨[("e", ["a", "b"])]⟩ "e" true).1 ∧
    LEvent.skip "b" ∉ (launch_apps (fun _ => some "") (fun a => !(a == "a"))
        ⟨[("e", ["a", "b"])]⟩ "e" true).1 := by
  exact ⟨by decide, by decide, by decide⟩

/-- C5 amended: a failure to spawn an individual application panics
(`expect`) and aborts the launch loop at that point: whenever processing of
a sequence ends in a spawn failure, apps appended after that sequence are
never examined (neither skipped nor spawned). -/
theorem spawn_failure_aborts_loop (pg : String → Option String)
    (spawnOk : String → Bool) (force : Bool) (apps1 apps2 : List String)
    (h : (launch_loop pg spawnOk force apps1).2 = false) :
    launch_loop pg spawnOk force (apps1 ++ apps2) =
      launch_loop pg spawnOk force apps1 := by
  induction apps1 with
  | nil => simp [launch_loop] at h
  | cons a rest ih =>
    by_cases hf : force = false
    · subst hf
      cases hia : is_app_running pg a with
      | error e => simp [launch_loop, hia]
      | ok b =>
        cases b with
        | true =>
          have h' : (launch_loop pg spawnOk false rest).2 = false := by
            simpa [launch_loop, hia] using h
          simp [launch_loop, hia, ih h']
        | false =>
          cases hsp : spawnOk a with
          | true =>
            have h' : (launch_loop pg spawnOk false rest).2 = false := by
              simpa [launch_loop, hia, hsp] using h
            simp [launch_loop, hia, hsp, ih h']
          | false => simp [launch_loop, hia, hsp]
    · have hf' : force = true := by
        cases force
        · exact absurd rfl hf
        · rfl
      subst hf'
      cases hsp : spawnOk a with
      | true =>
        have h' : (launch_loop pg spawnOk true rest).2 = false := by
          simpa [launch_loop, hsp] using h
        simp [launch_loop, hsp, ih h']
      | false => simp [launch_loop, hsp]

/-- Witness for `spawn_failure_aborts_loop`: a one-app sequence whose spawn
fails; appending `b` changes nothing. -/
theorem spawn_failure_aborts_loop_witness :
    (launch_loop (fun _ => some "") (fun _ => false) true ["a"]).2 = false ∧
    launch_loop (fun _ => some "") (fun _ => false) true (["a"] ++ ["b"]) =
      launch_loop (fun _ => some "") (fun _ => false) true ["a"] :=
  ⟨by decide, spawn_failure_aborts_loop _ _ _ ["a"] ["b"] (by decide)⟩

/-! ### Claim theorems for the probes and the availability dispatch -/

/-- C6 counterexample: the probes are not total — `is_app_running` panics
(an error, not the boolean default) when the pgrep helper cannot be run, and
`is_desktop_file_available` panics when HOME is unset. -/
theorem probe_total_counterexample :
    is_app_running (fun _ => none) "firefox"
      = Except.error "Failed to execute pgrep" ∧
    (is_app_running (fun _ => none) "firefox").isOk = false ∧
    is_desktop_file_available none (fun _ => true) "foo.desktop"
      = Except.error "HOME not set" := by
  exact ⟨rfl, rfl, rfl⟩

/-- C6 amended: `is_command_available` is total and maps a helper failure to
"not available", but `is_app_running` fails (a panic, not a boolean) exactly
when the pgrep helper cannot be run, and `is_desktop_file_available` fails
exactly when HOME is unset. -/
theorem probe_failure_behaviour (pg : String → Option String) (app : String)
    (home : Option String) (pe : String → Bool) (file : String) :
    is_command_available none = false ∧
    (is_app_running pg app).isOk = (pg (strip_desktop app)).isSome ∧
    (is_desktop_file_available home pe file).isOk = home.isSome := by
  refine ⟨rfl, ?_, ?_⟩
  · cases hpg : pg (strip_desktop app) with
    | none => simp [is_app_running, hpg, Except.isOk, Except.toBool]
    | some out => simp [is_app_running, hpg, Except.isOk, Except.toBool]
  · cases home with
    | none => rfl
    | some h => rfl

/-- C8: the availability check dispatches structurally on the identifier and
consults exactly one mechanism — a `.desktop` identifier is decided by the
desktop-directory scan alone (the `which` helper has no influence), any
other identifier by the `which` helper alone (HOME and the filesystem probe
have no influence). -/
theorem availability_dispatch_spec (app : String) (home1 home2 : Option String)
    (pe1 pe2 : String → Bool) (which1 which2 : String → Option Nat) :
    (endsWithS app ".desktop" = true →
      app_available home1 pe1 which1 app = is_desktop_file_available home1 pe1 app ∧
      app_available home1 pe1 which1 app = app_available home1 pe1 which2 app) ∧
    (endsWithS app ".desktop" = false →
      app_available home1 pe1 which1 app
        = Except.ok (is_command_available (which1 app)) ∧
      app_available home1 pe1 which1 app = app_available home2 pe2 which1 app) := by
  constructor
  · intro he
    constructor <;> simp [app_available, he]
  · intro he
    constructor <;> simp [app_available, he]

/-- Witness for `availability_dispatch_spec` at the spec's examples
`foo.desktop` and `foo`. -/
theorem availability_dispatch_spec_witness :
    endsWithS "foo.desktop" ".desktop" = true ∧
    app_available (some "/h") (fun _ => false) (fun _ => some 0) "foo.desktop"
      = app_available (some "/h") (fun _ => false) (fun _ => none) "foo.desktop" ∧
    endsWithS "foo" ".desktop" = false ∧
    app_available (some "/h") (fun _ => false) (fun _ => some 0) "foo"
      = app_available none (fun _ => true) (fun _ => some 0) "foo" := by
  refine ⟨by decide, ?_, by decide, ?_⟩
  · exact ((availability_dispatch_spec "foo.desktop" (some "/h") (some "/h")
      (fun _ => false) (fun _ => false) (fun _ => some 0) (fun _ => none)).1
      (by decide)).2
  · exact ((availability_dispatch_spec "foo" (some "/h") none
      (fun _ => false) (fun _ => true) (fun _ => some 0) (fun _ => some 0)).2
      (by decide)).2

/-! ### Lemmas and claim theorem for the Validator -/

lemma validate_apps_ok (h : String) (pe : String → Bool)
    (which : String → Option Nat) (env : String) (apps : List String) :
    ∀ ws allv, validate_apps (some h) pe which env apps (ws, allv) =
      Except.ok (ws ++ (apps.filter (fun a => !(availB h pe which a))).map
                   (fun a => (env, a)),
                 allv && apps.all (fun a => availB h pe which a)) := by
  induction apps with
  | nil => intro ws allv; simp [validate_apps]
  | cons a rest ih =>
    intro ws allv
    by_cases hd : endsWithS a ".desktop" = true
    · have hdesk : is_desktop_file_available (some h) pe a =
          Except.ok ((desktop_paths h).any (fun p => pe (p ++ "/" ++ a))) := rfl
      have hav : availB h pe which a
          = (desktop_paths h).any (fun p => pe (p ++ "/" ++ a)) := by
        simp [availB, hd]
      cases hv : (desktop_paths h).any (fun p => pe (p ++ "/" ++ a)) with
      | true => simp [validate_apps, hd, hdesk, hv, ih, hav]
      | false => simp [validate_apps, hd, hdesk, hv, ih, hav]
    · have hav : availB h pe which a = is_command_available (which a) := by
        simp [availB, hd]
      cases hv : is_command_available (which a) with
      | true => simp [validate_apps, hd, hv, ih, hav]
      | false => simp [validate_apps, hd, hv, ih, hav]

lemma validate_envs_ok (h : String) (pe : String → Bool)
    (which : String → Option Nat) (envs : List (String × List String)) :
    ∀ ws allv, validate_envs (some h) pe which envs (ws, allv) =
      Except.ok (ws ++ envs.flatMap (fun p =>
                   (p.2.filter (fun a => !(availB h pe which a))).map
                     (fun a => (p.1, a))),
                 allv && envs.all (fun p =>
                   p.2.all (fun a => availB h pe which a))) := by
  induction envs with
  | nil => intro ws allv; simp [validate_envs]
  | cons q rest ih =>
    intro ws allv
    obtain ⟨qe, qapps⟩ := q
    simp [validate_envs, validate_apps_ok h pe which qe qapps ws allv, ih,
          Bool.and_assoc]

lemma all_map_pair (f : String → Bool) (e : String) (apps : List String) :
    (apps.map (fun a => (e, a))).all (fun p => f p.2) = apps.all f := by
  induction apps with
  | nil => rfl
  | cons a rest ih => simp [ih]

lemma filter_map_pair (f : String → Bool) (e : String) (apps : List String) :
    (apps.map (fun a => (e, a))).filter (fun p => f p.2)
      = (apps.filter f).map (fun a => (e, a)) := by
  induction apps with
  | nil => rfl
  | cons a rest ih => cases hf : f a <;> simp [List.filter_cons, hf, ih]

lemma unavailable_pairs_flatMap (h : String) (pe : String → Bool)
    (which : String → Option Nat) (envs : List (String × List String)) :
    ((envs.flatMap (fun p => p.2.map (fun a => (p.1, a)))).filter
        (fun p => !(availB h pe which p.2)))
      = envs.flatMap (fun p =>
          (p.2.filter (fun a => !(availB h pe which a))).map
            (fun a => (p.1, a))) := by
  induction envs with
  | nil => rfl
  | cons q rest ih =>
    rw [List.flatMap_cons, List.filter_append, ih,
        filter_map_pair (fun a => !(availB h pe which a)) q.1 q.2,
        List.flatMap_cons]

lemma allPairs_all_eq (h : String) (pe : String → Bool)
    (which : String → Option Nat) (envs : List (String × List String)) :
    ((envs.flatMap (fun p => p.2.map (fun a => (p.1, a)))).all
        (fun p => availB h pe which p.2))
      = envs.all (fun p => p.2.all (fun a => availB h pe which a)) := by
  induction envs with
  | nil => rfl
  | cons q rest ih =>
    rw [List.flatMap_cons, List.all_append, ih,
        all_map_pair (availB h pe which) q.1 q.2, List.all_cons]

/-- C7: the Validator performs a full scan: for a Config whose pairs include
K unavailable (env, app) pairs, it emits exactly K warning lines — one per
unavailable pair, in scan order — and prints the single "all valid"
confirmation if and only if K = 0. -/
theorem validator_completeness_spec (h : String) (pe : String → Bool)
    (which : String → Option Nat) (c : Config) :
    validate_config (some h) pe which c =
      Except.ok (unavailable_pairs h pe which c,
                 (allPairs c).all (fun p => availB h pe which p.2)) ∧
    (unavailable_pairs h pe which c).length =
      (allPairs c).countP (fun p => !(availB h pe which p.2)) ∧
    ((allPairs c).all (fun p => availB h pe which p.2) = true ↔
      (allPairs c).countP (fun p => !(availB h pe which p.2)) = 0) := by
  have hwarn : unavailable_pairs h pe which c =
      c.environments.flatMap (fun p =>
        (p.2.filter (fun a => !(availB h pe which a))).map (fun a => (p.1, a))) :=
    unavailable_pairs_flatMap h pe which c.environments
  have hflag : (allPairs c).all (fun p => availB h pe which p.2) =
      c.environments.all (fun p => p.2.all (fun a => availB h pe which a)) :=
    allPairs_all_eq h pe which c.environments
  refine ⟨?_, ?_, ?_⟩
  · rw [validate_config, validate_envs_ok h pe which c.environments [] true]
    rw [hwarn, hflag]
    simp
  · rw [List.countP_eq_length_filter]
    rfl
  · rw [List.countP_eq_length_filter, List.length_eq_zero,
        List.filter_eq_nil_iff, List.all_eq_true]
    constructor
    · intro hall p hp
      simp [hall p hp]
    · intro hall p hp
      have := hall p hp
      simpa using this

/-! ### Lemmas and claim theorem for persistence round-trip -/

lemma parseApps_map_str (l : List String) :
    parseApps (l.map Yaml.str) = some l := by
  induction l with
  | nil => rfl
  | cons s rest ih => simp [parseApps, ih]

lemma any_map_key (l : List (String × List String)) (k : String) :
    (l.map (fun p => (p.1, Yaml.seq (p.2.map Yaml.str)))).any (fun q => q.1 == k)
      = l.any (fun q => q.1 == k) := by
  induction l with
  | nil => rfl
  | cons p rest ih => simp [ih]

lemma parseEnvs_save (l : List (String × List String))
    (h : envKeysNodup l = true) :
    parseEnvs (l.map (fun p => (p.1, Yaml.seq (p.2.map Yaml.str)))) = some l := by
  induction l with
  | nil => rfl
  | cons p rest ih =>
    rw [envKeysNodup] at h
    rw [Bool.and_eq_true, Bool.not_eq_true'] at h
    have hdup' : (rest.map (fun p => (p.1, Yaml.seq (p.2.map Yaml.str)))).any
        (fun q => q.1 == p.1) = false := by
      rw [any_map_key]
      exact h.1
    simp [parseEnvs, hdup', parseApps_map_str, ih h.2]

/-- C9: persistence round-trips — loading a saved Config with unique
environment keys restores every environment and its app sequence exactly and
in order (no reordering, no data loss), so saving again produces the
identical document: Save(Load(Save c)) = Save c. -/
theorem save_load_roundtrip_spec (c : Config)
    (h : envKeysNodup c.environments = true) :
    load_config (save_config c) = some c ∧
    (load_config (save_config c)).map save_config = some (save_config c) := by
  have h1 : load_config (save_config c) = some c := by
    simp [load_config, save_config, parseEnvs_save c.environments h]
  exact ⟨h1, by rw [h1]; rfl⟩

/-- Witness for `save_load_roundtrip_spec` at a concrete two-environment
Config. -/
theorem save_load_roundtrip_spec_witness :
    envKeysNodup [("a", ["x", "y"]), ("b", [])] = true ∧
    load_config (save_config ⟨[("a", ["x", "y"]), ("b", [])]⟩)
      = some ⟨[("a", ["x", "y"]), ("b", [])]⟩ :=
  ⟨by decide,
   (save_load_roundtrip_spec ⟨[("a", ["x", "y"]), ("b", [])]⟩ (by decide)).1⟩

end Clovis
